import Mathlib

/-!
Verification of the goroutine-stack parsing and leak-check adapter code.

The development shallowly embeds the Go source:
* the stack parser (getStacks, parseGoStackHeader, parseFirstFunc, Current),
* the capture loop (getStackBuffer), and
* the test-harness adapter (verifyTestMain).

Strings are modelled as List Char; the input bytes of a dump are the
character sequence handed to the parser.  Go panics are modelled as
explicit outcome constructors (nilDeref, funcPanic) so that abnormal
termination is distinguishable from returning an error value.
-/

namespace Goleak

/-! ## String primitives (embeddings of the Go strings package functions used) -/

/-- Embedding of unicode.IsSpace restricted to Latin-1, as used by
strings.TrimSpace in the Go source. -/
def goSpace (c : Char) : Bool :=
  c = ' ' || c = '\t' || c = '\n' || c = '\x0b' || c = '\x0c' ||
  c = '\r' || c = '\u0085' || c = '\u00A0'

/-- Embedding of strings.TrimSpace. -/
def goTrimSpace (s : List Char) : List Char :=
  ((s.dropWhile goSpace).reverse.dropWhile goSpace).reverse

/-- Embedding of strings.TrimSuffix. -/
def goTrimSuffix (s suf : List Char) : List Char :=
  if suf.isSuffixOf s then s.take (s.length - suf.length) else s

/-- Embedding of strings.TrimPrefix. -/
def goTrimPrefix (s pre : List Char) : List Char :=
  if pre.isPrefixOf s then s.drop pre.length else s

/-- Split a list at the first occurrence of the character c, returning the
part before and the part after; none when c does not occur. -/
def splitFirst (c : Char) : List Char → Option (List Char × List Char)
  | [] => none
  | x :: xs =>
    if x = c then some ([], xs)
    else
      match splitFirst c xs with
      | none => none
      | some (a, b) => some (x :: a, b)

/-- Embedding of strings.SplitN with a single-character separator and n = 3. -/
def splitN3 (c : Char) (s : List Char) : List (List Char) :=
  match splitFirst c s with
  | none => [s]
  | some (a, r) =>
    match splitFirst c r with
    | none => [a, r]
    | some (b, r2) => [a, b, r2]

/-- Index of the last occurrence of a character, as strings.LastIndex does for
a single-character needle (none models the -1 result). -/
def lastIdxOf (c : Char) : List Char → Option Nat
  | [] => none
  | x :: xs =>
    match lastIdxOf c xs with
    | some i => some (i + 1)
    | none => if x = c then some 0 else none

/-- Numeric value of a decimal digit string, accumulated exactly as a
base-10 left fold (the digit value of a non-digit char is garbage, as in
any use before the all-digits check). -/
def decValue (s : List Char) : Nat :=
  s.foldl (fun acc c => acc * 10 + (c.toNat - 48)) 0

/-- Digit-and-range phase of strconv.ParseInt: at least one digit, all
digits, and a magnitude within the 64-bit range for the given sign. -/
def goAtoiRest (neg : Bool) (digits : List Char) : Option Int :=
  if digits.isEmpty then none
  else if digits.all Char.isDigit then
    if decValue digits ≤ (if neg then 2 ^ 63 else 2 ^ 63 - 1) then
      some ((if neg then -1 else 1) * (decValue digits : Int))
    else none
  else none

/-- Embedding of strconv.Atoi (strconv.ParseInt base 10, 64-bit int):
optional sign, at least one digit, all digits, value within int64 range;
none models a non-nil error. -/
def goAtoi (s : List Char) : Option Int :=
  match s with
  | [] => none
  | c :: cs =>
    if c = '-' then goAtoiRest true cs
    else if c = '+' then goAtoiRest false cs
    else goAtoiRest false (c :: cs)

/-! ## Reading lines

bufio.Reader.ReadString reads up to and including the next newline; at end
of input it reports io.EOF together with the unterminated remainder, and
getStacks breaks out of its loop on io.EOF, discarding that remainder.
completeLines therefore yields exactly the newline-terminated lines. -/

/-- Worker for completeLines: acc is the part of the current line read so
far.  An end of input with a nonempty acc discards acc, exactly as the
io.EOF break in getStacks discards the unterminated line. -/
def splitCL (acc : List Char) : List Char → List (List Char)
  | [] => []
  | c :: cs =>
    if c = '\n' then (acc ++ ['\n']) :: splitCL [] cs
    else splitCL (acc ++ [c]) cs

/-- The sequence of newline-terminated lines that the read loop of
getStacks observes on the given input. -/
def completeLines (s : List Char) : List (List Char) :=
  splitCL [] s

/-! ## Data model -/

/-- Embedding of the Stack struct.  fullStack is the accumulated buffer
contents as a character list. -/
structure Stack where
  id : Int
  state : List Char
  firstFunction : List Char
  fullStack : List Char
deriving DecidableEq, Repr

/-- Error values that getStacks can return: the two header-parse error
shapes of parseGoStackHeader (carrying the text they format into the
message) and the errNoStacks sentinel. -/
inductive ParseError where
  | badHeader (line : List Char)
  | badID (idField : List Char) (line : List Char)
  | noStacks
deriving DecidableEq, Repr

/-- Outcome of running getStacks: a normal return of stacks, a non-nil
error return, or one of the two abnormal terminations of the Go code
(a nil *Stack dereference, and the panic inside parseFirstFunc). -/
inductive ParseOutcome where
  | ok (out : List Stack)
  | err (e : ParseError)
  | nilDeref (line : List Char)
  | funcPanic (line : List Char)
deriving DecidableEq, Repr

/-! ## The parser -/

/-- Embedding of parseFirstFunc: trim the line, take the text strictly
before the last occurrence of a left parenthesis provided that occurrence
is at a positive index; none models the panic branch. -/
def parseFirstFunc (line : List Char) : Option (List Char) :=
  match lastIdxOf '(' (goTrimSpace line) with
  | some idx => if 0 < idx then some ((goTrimSpace line).take idx) else none
  | none => none

/-- Embedding of parseGoStackHeader: trim a trailing colon-newline, split
into at most three space-separated fields, require exactly three, parse
the id with Atoi, and strip one bracket pair from the state field. -/
def parseGoStackHeader (line : List Char) :
    Except ParseError (Int × List Char) :=
  match splitN3 ' ' (goTrimSuffix line ":\n".toList) with
  | [_p0, p1, p2] =>
    match goAtoi p1 with
    | none => .error (.badID p1 (goTrimSuffix line ":\n".toList))
    | some id => .ok (id, goTrimSuffix (goTrimPrefix p2 "[".toList) "]".toList)
  | _ => .error (.badHeader (goTrimSuffix line ":\n".toList))

/-- Appending the in-progress record (if any) to the output list, as the
flush sites in getStacks do. -/
def flushStack (cur : Option Stack) (out : List Stack) : List Stack :=
  match cur with
  | some s => out ++ [s]
  | none => out

/-- The line loop of getStacks, with the current record and accumulated
output as explicit state.  Mirrors the Go loop body line by line:
a goroutine header flushes and starts a record (errors aborting with the
header error); any other line is appended to the current record, taking
the first function from the first body line; a missing current record is
the nil dereference, and a failing parseFirstFunc is its panic. -/
def processLines : List (List Char) → Option Stack → List Stack → ParseOutcome
  | [], cur, out =>
    if (flushStack cur out).isEmpty then .err .noStacks
    else .ok (flushStack cur out)
  | line :: rest, cur, out =>
    if "goroutine ".toList.isPrefixOf line then
      match parseGoStackHeader line with
      | .error e => .err e
      | .ok (id, st) =>
        processLines rest (some ⟨id, st, [], line⟩) (flushStack cur out)
    else
      match cur with
      | none => .nilDeref line
      | some c =>
        if c.firstFunction = [] then
          match parseFirstFunc line with
          | some f =>
            processLines rest (some ⟨c.id, c.state, f, c.fullStack ++ line⟩) out
          | none => .funcPanic line
        else
          processLines rest
            (some ⟨c.id, c.state, c.firstFunction, c.fullStack ++ line⟩) out

/-- Embedding of getStacks on given dump text (the capture step that
produces the text is modelled separately by getStackBuffer). -/
def getStacks (input : List Char) : ParseOutcome :=
  processLines (completeLines input) none []

/-- Outcome of Current: as getStacks, plus the out-of-range indexing that
taking element 0 of an empty success would be. -/
inductive CurrentOutcome where
  | ok (s : Stack)
  | err (e : ParseError)
  | nilDeref (line : List Char)
  | funcPanic (line : List Char)
  | indexPanic
deriving DecidableEq, Repr

/-- Embedding of Current on the dump text produced by a current-only
capture: parse, propagate errors, and return the first stack. -/
def Current (dump : List Char) : CurrentOutcome :=
  match getStacks dump with
  | .ok [] => .indexPanic
  | .ok (s :: _) => .ok s
  | .err e => .err e
  | .nilDeref l => .nilDeref l
  | .funcPanic l => .funcPanic l

/-! ## The capture loop (getStackBuffer)

runtime.Stack is an external primitive; it is modelled as a function from
the buffer capacity to the bytes it writes.  The Go loop has no bound, so
it is embedded with explicit fuel; the theorems quantify over any
sufficient fuel. -/

/-- The fixed default buffer size of the Go source (64 KiB). -/
def defaultBufferSize : Nat := 64 * 1024

/-- The doubling loop of getStackBuffer: ask the primitive to fill a
buffer of capacity cap; if the number of bytes written is strictly below
cap, return exactly those bytes, otherwise double cap and retry. -/
def getStackBufferLoop (prim : Nat → List Char) : Nat → Nat → Option (List Char)
  | 0, _ => none
  | fuel + 1, cap =>
    let written := prim cap
    if written.length < cap then some written
    else getStackBufferLoop prim fuel (cap * 2)

/-- Embedding of getStackBuffer: run the doubling loop from the default
buffer size. -/
def getStackBuffer (prim : Nat → List Char) (fuel : Nat) : Option (List Char) :=
  getStackBufferLoop prim fuel defaultBufferSize

/-- A faithful fake of the introspection primitive over a fixed true dump:
it reports the whole dump when it fits strictly inside the buffer, and a
truncation filling the whole buffer otherwise. -/
def primOf (dump : List Char) (cap : Nat) : List Char :=
  if dump.length < cap then dump else dump.take cap

/-! ## The test-harness adapter (verifyTestMain)

The Run result of the TestingM and the result of Find are inputs; the
returned record carries the exit code, whether Find was invoked, and the
lines written to the error stream. -/

/-- Result of Find as the adapter observes it, following the spec for the
error taxonomy of the verification step: a leak result carrying the
surviving candidate stacks, or one of the two parse-class errors. -/
inductive FindError where
  | leakDetected (leaks : List Stack)
  | structuralParse (e : ParseError)
  | emptySnapshot
deriving DecidableEq, Repr

/-- Modelled from the spec: the err.(stackParseErr) type test of
verifyTestMain.  The body of Find (which wraps parser failures into the
stackParseErr string type) is not among the provided source files; per
the spec, StructuralParseError and EmptySnapshotError are the parse-class
errors, handled identically, while a LeakDetected result is not. -/
def FindError.isStackParseErr : FindError → Bool
  | .leakDetected _ => false
  | .structuralParse _ => true
  | .emptySnapshot => true

/-- Prefix of the diagnostic written on the skipped path. -/
def skippedDiagnostic : List Char :=
  "goleak: skipped due to stack parsing failures".toList

/-- Prefix of the diagnostic written on the failing path. -/
def failedDiagnostic : List Char :=
  "goleak: failed due to stack parsing failures".toList

/-- Observable result of verifyTestMain. -/
structure AdapterResult where
  exitCode : Int
  findCalled : Bool
  stderr : List (List Char)
deriving DecidableEq, Repr

/-- Embedding of verifyTestMain: run the tests first and short-circuit on a
non-zero result; otherwise consult Find, and map a nil result to exit 0, a
parse-class error to a skipped diagnostic with exit 0, and any other error
to a failure diagnostic with exit 1. -/
def verifyTestMain (runExitCode : Int) (findResult : Option FindError) :
    AdapterResult :=
  if runExitCode ≠ 0 then ⟨runExitCode, false, []⟩
  else
    match findResult with
    | none => ⟨0, true, []⟩
    | some e =>
      if e.isStackParseErr then ⟨0, true, [skippedDiagnostic]⟩
      else ⟨1, true, [failedDiagnostic]⟩

/-! ## Well-formed synthetic dumps

A RawRecord is the abstract content of one record of a dump: the decimal
digit string of the id, the state label, and the body line contents
(without their terminating newlines).  renderDump produces the dump text
the runtime would print for such records. -/

structure RawRecord where
  idDigits : List Char
  state : List Char
  body : List (List Char)
deriving DecidableEq, Repr

/-- The header line of a record, including the terminating newline. -/
def headerLine (r : RawRecord) : List Char :=
  "goroutine ".toList ++ r.idDigits ++ " [".toList ++ r.state ++ "]:\n".toList

/-- All lines of a record: the header followed by the newline-terminated
body lines. -/
def recordLines (r : RawRecord) : List (List Char) :=
  headerLine r :: r.body.map (fun b => b ++ ['\n'])

/-- The exact text of one record: the concatenation of its header line and
its body lines. -/
def renderRecord (r : RawRecord) : List Char :=
  (recordLines r).flatten

/-- The dump text for a sequence of records. -/
def renderDump (rs : List RawRecord) : List Char :=
  (rs.map renderRecord).flatten

/-- Conditions on the header data of a record making its header line
parse: a nonempty all-digit id within the int64 range, and a state label
free of newlines. -/
def wellFormedHeader (r : RawRecord) : Prop :=
  r.idDigits ≠ [] ∧ (∀ c ∈ r.idDigits, c.isDigit = true) ∧
  decValue r.idDigits < 2 ^ 63 ∧ '\n' ∉ r.state

/-- A record whose rendering getStacks parses back: a parseable header, at
least one body line, a first body line accepted by parseFirstFunc, and
body lines that are newline-free and are not themselves header lines. -/
def wellFormedRecord (r : RawRecord) : Prop :=
  wellFormedHeader r ∧
  r.body ≠ [] ∧
  (parseFirstFunc (r.body.headI ++ ['\n'])).isSome = true ∧
  ∀ b ∈ r.body, '\n' ∉ b ∧
    "goroutine ".toList.isPrefixOf (b ++ ['\n']) = false

instance (r : RawRecord) : Decidable (wellFormedHeader r) := by
  unfold wellFormedHeader
  infer_instance

instance (r : RawRecord) : Decidable (wellFormedRecord r) := by
  unfold wellFormedRecord
  infer_instance

/-- The first-function label the parser derives for a record. -/
def firstFuncOf (r : RawRecord) : List Char :=
  (parseFirstFunc (r.body.headI ++ ['\n'])).getD []

/-- The Stack value that parsing a rendered record produces. -/
def stackOfRecord (r : RawRecord) : Stack :=
  ⟨Int.ofNat (decValue r.idDigits), r.state, firstFuncOf r, renderRecord r⟩

/-- The flat sequence of lines of a rendered dump. -/
def flatLines (rs : List RawRecord) : List (List Char) :=
  (rs.map recordLines).flatten

/-- The parser state (current record, flushed records) after scanning a
sequence of well-formed records. -/
def scanState : List RawRecord → Option Stack → List Stack →
    Option Stack × List Stack
  | [], cur, out => (cur, out)
  | r :: rs, cur, out => scanState rs (some (stackOfRecord r)) (flushStack cur out)

/-- The first-function computation that the specification describes, with
the truncation point being the last left parenthesis of the trimmed line
(empty when there is none). -/
def firstFuncAmended (line : List Char) : List Char :=
  match lastIdxOf '(' (goTrimSpace line) with
  | some idx => (goTrimSpace line).take idx
  | none => []

/-- The first-function computation as claimed, truncating the trimmed
line at its first left parenthesis. -/
def firstFuncClaimed (line : List Char) : List Char :=
  (goTrimSpace line).takeWhile (fun c => c ≠ '(')

/-! ## Lemmas about the string primitives -/

theorem isPrefixOf_append (a b : List Char) : a.isPrefixOf (a ++ b) = true := by
  induction a with
  | nil => simp [List.isPrefixOf]
  | cons x xs ih => simp [List.isPrefixOf, ih]

theorem goTrimSuffix_append (x s : List Char) : goTrimSuffix (x ++ s) s = x := by
  unfold goTrimSuffix
  have hsuf : s.isSuffixOf (x ++ s) = true := by
    simp [List.isSuffixOf, List.reverse_append, isPrefixOf_append]
  rw [if_pos hsuf, List.length_append, Nat.add_sub_cancel]
  exact List.take_left x s

theorem goTrimPrefix_append (p rest : List Char) :
    goTrimPrefix (p ++ rest) p = rest := by
  unfold goTrimPrefix
  rw [if_pos (isPrefixOf_append p rest), List.drop_left]

theorem splitFirst_append (c : Char) (a b : List Char) (h : c ∉ a) :
    splitFirst c (a ++ c :: b) = some (a, b) := by
  induction a with
  | nil => simp [splitFirst]
  | cons x xs ih =>
    have hx : x ≠ c := fun hc => h (hc ▸ List.mem_cons_self x xs)
    have hxs : c ∉ xs := fun hm => h (List.mem_cons_of_mem x hm)
    simp [splitFirst, hx, ih hxs]

theorem splitFirst_none (c : Char) (s : List Char) (h : c ∉ s) :
    splitFirst c s = none := by
  induction s with
  | nil => rfl
  | cons x xs ih =>
    have hx : x ≠ c := fun hc => h (hc ▸ List.mem_cons_self x xs)
    have hxs : c ∉ xs := fun hm => h (List.mem_cons_of_mem x hm)
    simp [splitFirst, hx, ih hxs]

theorem digit_ne_space {c : Char} (h : c.isDigit = true) : c ≠ ' ' := by
  intro hc; subst hc; simp [Char.isDigit] at h

theorem digit_ne_newline {c : Char} (h : c.isDigit = true) : c ≠ '\n' := by
  intro hc; subst hc; simp [Char.isDigit] at h

theorem digit_ne_sign {c : Char} (h : c.isDigit = true) : c ≠ '-' ∧ c ≠ '+' := by
  constructor <;> intro hc <;> subst hc <;> simp [Char.isDigit] at h

/-- Atoi on a nonempty all-digit string within range yields its decimal
value. -/
theorem goAtoi_digits (s : List Char) (hne : s ≠ [])
    (hd : ∀ c ∈ s, c.isDigit = true) (hr : decValue s < 2 ^ 63) :
    goAtoi s = some (Int.ofNat (decValue s)) := by
  obtain ⟨c, cs, rfl⟩ := List.exists_cons_of_ne_nil hne
  have hc : c.isDigit = true := hd c (List.mem_cons_self c cs)
  have hsign := digit_ne_sign hc
  simp only [goAtoi]
  rw [if_neg hsign.1, if_neg hsign.2]
  unfold goAtoiRest
  rw [if_neg (by simp)]
  rw [if_pos (by simpa [List.all_eq_true] using hd)]
  rw [if_pos (by simp only [Bool.false_eq_true, if_false]; omega)]
  simp

/-! ## Lemmas about line splitting -/

theorem splitCL_line (m t acc : List Char) (h : '\n' ∉ m) :
    splitCL acc (m ++ '\n' :: t) = (acc ++ m ++ ['\n']) :: splitCL [] t := by
  induction m generalizing acc with
  | nil => simp [splitCL]
  | cons x xs ih =>
    have hx : x ≠ '\n' := fun hc => h (hc ▸ List.mem_cons_self x xs)
    have hxs : '\n' ∉ xs := fun hm => h (List.mem_cons_of_mem x hm)
    rw [List.cons_append]
    rw [show splitCL acc (x :: (xs ++ '\n' :: t)) =
          splitCL (acc ++ [x]) (xs ++ '\n' :: t) by simp [splitCL, hx]]
    rw [ih (acc ++ [x]) hxs]
    simp

theorem splitCL_no_newline (t acc : List Char) (h : '\n' ∉ t) :
    splitCL acc t = [] := by
  induction t generalizing acc with
  | nil => rfl
  | cons x xs ih =>
    have hx : x ≠ '\n' := fun hc => h (hc ▸ List.mem_cons_self x xs)
    have hxs : '\n' ∉ xs := fun hm => h (List.mem_cons_of_mem x hm)
    simp [splitCL, hx, ih _ hxs]

/-- A line in the sense of the scanner: some newline-free text followed by
exactly one newline. -/
def NLLine (l : List Char) : Prop :=
  ∃ m, '\n' ∉ m ∧ l = m ++ ['\n']

theorem splitCL_flatten (ls : List (List Char)) (rest : List Char)
    (h : ∀ l ∈ ls, NLLine l) :
    splitCL [] (ls.flatten ++ rest) = ls ++ splitCL [] rest := by
  induction ls with
  | nil => simp
  | cons a ls ih =>
    have h' : ∀ l ∈ ls, NLLine l := fun l hl => h l (List.mem_cons_of_mem a hl)
    obtain ⟨m, hm, rfl⟩ := h a (List.mem_cons_self a ls)
    rw [List.flatten_cons, List.append_assoc, List.append_assoc]
    rw [show ['\n'] ++ (ls.flatten ++ rest) = '\n' :: (ls.flatten ++ rest) from rfl]
    rw [splitCL_line _ _ _ hm, ih h']
    simp

theorem completeLines_append_no_newline (s t : List Char) (h : '\n' ∉ t) :
    completeLines (s ++ t) = completeLines s := by
  unfold completeLines
  generalize ([] : List Char) = acc
  induction s generalizing acc with
  | nil => simpa [splitCL] using splitCL_no_newline t acc h
  | cons x xs ih =>
    by_cases hx : x = '\n' <;> simp [splitCL, hx, ih]

/-! ## Lemmas about the record grammar -/

/-- The header line without its final newline. -/
def headerM (r : RawRecord) : List Char :=
  "goroutine ".toList ++ r.idDigits ++ " [".toList ++ r.state ++ "]:".toList

theorem headerLine_eq (r : RawRecord) : headerLine r = headerM r ++ ['\n'] := by
  simp [headerLine, headerM]

theorem headerM_no_newline (r : RawRecord) (h : wellFormedHeader r) :
    '\n' ∉ headerM r := by
  obtain ⟨-, hdig, -, hst⟩ := h
  intro hm
  simp only [headerM, List.mem_append] at hm
  rcases hm with ((((hm | hm) | hm) | hm) | hm)
  · revert hm; decide
  · exact digit_ne_newline (hdig _ hm) rfl
  · revert hm; decide
  · exact hst hm
  · revert hm; decide

theorem recordLines_NLLine (r : RawRecord) (hwf : wellFormedRecord r) :
    ∀ l ∈ recordLines r, NLLine l := by
  intro l hl
  obtain ⟨hh, -, -, hbody⟩ := hwf
  simp only [recordLines, List.mem_cons, List.mem_map] at hl
  rcases hl with rfl | ⟨b, hb, rfl⟩
  · exact ⟨headerM r, headerM_no_newline r hh, headerLine_eq r⟩
  · exact ⟨b, (hbody b hb).1, rfl⟩

theorem renderDump_eq_flatten (rs : List RawRecord) :
    renderDump rs = (flatLines rs).flatten := by
  induction rs with
  | nil => simp [renderDump, flatLines]
  | cons r rs ih =>
    simp [renderDump, flatLines, renderRecord] at ih ⊢
    simp [ih]

theorem completeLines_renderDump_append (rs : List RawRecord) (rest : List Char)
    (hwf : ∀ r ∈ rs, wellFormedRecord r) :
    completeLines (renderDump rs ++ rest) = flatLines rs ++ completeLines rest := by
  have hls : ∀ l ∈ flatLines rs, NLLine l := by
    intro l hl
    simp only [flatLines, List.mem_flatten, List.mem_map] at hl
    obtain ⟨ls, ⟨r, hr, rfl⟩, hl⟩ := hl
    exact recordLines_NLLine r (hwf r hr) l hl
  rw [renderDump_eq_flatten]
  exact splitCL_flatten _ _ hls

theorem headerLine_regrouped (r : RawRecord) :
    headerLine r =
      ("goroutine".toList ++
        ' ' :: (r.idDigits ++ ' ' :: ('[' :: (r.state ++ [']'])))) ++ ":\n".toList := by
  simp [headerLine]

/-- Parsing the header line of a record with well-formed header data
recovers its id and state. -/
theorem parseGoStackHeader_headerLine (r : RawRecord) (h : wellFormedHeader r) :
    parseGoStackHeader (headerLine r) =
      Except.ok (Int.ofNat (decValue r.idDigits), r.state) := by
  obtain ⟨hne, hdig, hrange, hst⟩ := h
  have hsp : ' ' ∉ r.idDigits := fun hm => digit_ne_space (hdig _ hm) rfl
  have htrim : goTrimSuffix (headerLine r) ":\n".toList =
      "goroutine".toList ++ ' ' :: (r.idDigits ++ ' ' :: ('[' :: (r.state ++ [']']))) := by
    rw [headerLine_regrouped, goTrimSuffix_append]
  have hs1 : splitFirst ' '
      ("goroutine".toList ++ ' ' :: (r.idDigits ++ ' ' :: ('[' :: (r.state ++ [']'])))) =
      some ("goroutine".toList, r.idDigits ++ ' ' :: ('[' :: (r.state ++ [']']))) :=
    splitFirst_append ' ' _ _ (by decide)
  have hs2 : splitFirst ' ' (r.idDigits ++ ' ' :: ('[' :: (r.state ++ [']']))) =
      some (r.idDigits, '[' :: (r.state ++ [']'])) :=
    splitFirst_append ' ' _ _ hsp
  have hstate : goTrimSuffix (goTrimPrefix ('[' :: (r.state ++ [']'])) "[".toList)
      "]".toList = r.state := by
    rw [show ('[' :: (r.state ++ [']'])) = "[".toList ++ (r.state ++ [']']) from rfl]
    rw [goTrimPrefix_append]
    rw [show r.state ++ [']'] = r.state ++ "]".toList from rfl]
    rw [goTrimSuffix_append]
  unfold parseGoStackHeader
  rw [htrim]
  simp only [splitN3, hs1, hs2]
  rw [goAtoi_digits r.idDigits hne hdig hrange]
  rw [hstate]

/-- The header line of any record starts with the goroutine marker. -/
theorem headerLine_marker (r : RawRecord) :
    "goroutine ".toList.isPrefixOf (headerLine r) = true := by
  unfold headerLine
  exact isPrefixOf_append _ _

/-- parseGoStackHeader never produces the errNoStacks sentinel. -/
theorem parseGoStackHeader_ne_noStacks (l : List Char) (e : ParseError)
    (h : parseGoStackHeader l = .error e) : e ≠ .noStacks := by
  unfold parseGoStackHeader at h
  split at h
  · split at h
    · simp only [Except.error.injEq] at h
      subst h
      simp
    · simp at h
  · simp only [Except.error.injEq] at h
    subst h
    simp

/-! ## Lemmas about parseFirstFunc -/

theorem lastIdxOf_lt_length (c : Char) (s : List Char) (i : Nat)
    (h : lastIdxOf c s = some i) : i < s.length := by
  induction s generalizing i with
  | nil => simp [lastIdxOf] at h
  | cons x xs ih =>
    unfold lastIdxOf at h
    rcases hr : lastIdxOf c xs with _ | j <;> rw [hr] at h
    · by_cases hx : x = c
      · rw [if_pos hx] at h
        simp only [Option.some.injEq] at h
        subst h
        simp
      · rw [if_neg hx] at h
        simp at h
    · simp only [Option.some.injEq] at h
      subst h
      have := ih j hr
      simp only [List.length_cons]
      omega

theorem parseFirstFunc_ne_nil (l f : List Char) (h : parseFirstFunc l = some f) :
    f ≠ [] := by
  unfold parseFirstFunc at h
  rcases hr : lastIdxOf '(' (goTrimSpace l) with _ | idx <;> simp only [hr] at h
  · exact absurd h (by simp)
  · by_cases hidx : 0 < idx
    · rw [if_pos hidx] at h
      simp only [Option.some.injEq] at h
      subst h
      have hlt := lastIdxOf_lt_length _ _ _ hr
      intro hf
      have hlen := congrArg List.length hf
      rw [List.length_take] at hlen
      simp only [List.length_nil] at hlen
      omega
    · rw [if_neg hidx] at h
      simp at h

/-- When parseFirstFunc succeeds, its result is the trimmed line truncated
at its last left parenthesis. -/
theorem parseFirstFunc_eq_amended (l : List Char)
    (h : (parseFirstFunc l).isSome = true) :
    (parseFirstFunc l).getD [] = firstFuncAmended l := by
  unfold parseFirstFunc at h ⊢
  unfold firstFuncAmended
  rcases hr : lastIdxOf '(' (goTrimSpace l) with _ | idx <;> simp only [hr] at h ⊢
  · exact absurd h (by simp)
  · by_cases hidx : 0 < idx
    · rw [if_pos hidx]
      simp
    · rw [if_neg hidx] at h
      simp at h

/-! ## Lemmas about the scan loop -/

/-- Processing a header line of a record with well-formed header data:
flush the current record and start a new one holding the header line. -/
theorem processLines_header_step (r : RawRecord) (X : List (List Char))
    (cur : Option Stack) (out : List Stack) (hwf : wellFormedHeader r) :
    processLines (headerLine r :: X) cur out =
      processLines X
        (some ⟨Int.ofNat (decValue r.idDigits), r.state, [], headerLine r⟩)
        (flushStack cur out) := by
  have hpre := headerLine_marker r
  have hhdr := parseGoStackHeader_headerLine r hwf
  simp only [processLines, hpre, if_true, hhdr]

/-- Processing a non-header line while a record with a nonempty first
function is in progress just appends the line to its full text. -/
theorem processLines_body_step (m : List Char) (X : List (List Char))
    (c : Stack) (out : List Stack)
    (hnp : "goroutine ".toList.isPrefixOf (m ++ ['\n']) = false)
    (hff : c.firstFunction ≠ []) :
    processLines ((m ++ ['\n']) :: X) (some c) out =
      processLines X
        (some ⟨c.id, c.state, c.firstFunction, c.fullStack ++ (m ++ ['\n'])⟩) out := by
  simp only [processLines, hnp, Bool.false_eq_true, if_false, if_neg hff]

/-- A header line whose header parse fails aborts the scan with exactly
that error, whatever came before and whatever follows. -/
theorem processLines_header_error (line : List Char) (X : List (List Char))
    (cur : Option Stack) (out : List Stack) (e : ParseError)
    (hp : "goroutine ".toList.isPrefixOf line = true)
    (he : parseGoStackHeader line = .error e) :
    processLines (line :: X) cur out = .err e := by
  simp only [processLines, hp, if_true, he]

/-- A non-header line arriving while no record is in progress is the nil
dereference. -/
theorem processLines_nilDeref (line : List Char) (X : List (List Char))
    (out : List Stack)
    (hp : "goroutine ".toList.isPrefixOf line = false) :
    processLines (line :: X) none out = .nilDeref line := by
  simp only [processLines, hp, Bool.false_eq_true, if_false]

/-- A non-header line on which parseFirstFunc fails, arriving while the
current record still lacks a first function, is the panic. -/
theorem processLines_funcPanic (line : List Char) (X : List (List Char))
    (c : Stack) (out : List Stack)
    (hp : "goroutine ".toList.isPrefixOf line = false)
    (hff : c.firstFunction = [])
    (hpf : parseFirstFunc line = none) :
    processLines (line :: X) (some c) out = .funcPanic line := by
  simp only [processLines, hp, Bool.false_eq_true, if_false, if_pos hff, hpf]

/-- Processing the remaining body lines of a record accumulates exactly
their concatenation onto the full text. -/
theorem processLines_body (bs : List (List Char)) (X : List (List Char))
    (c : Stack) (out : List Stack)
    (hff : c.firstFunction ≠ [])
    (hbs : ∀ b ∈ bs, "goroutine ".toList.isPrefixOf (b ++ ['\n']) = false) :
    processLines (bs.map (fun b => b ++ ['\n']) ++ X) (some c) out =
      processLines X
        (some ⟨c.id, c.state, c.firstFunction,
          c.fullStack ++ (bs.map (fun b => b ++ ['\n'])).flatten⟩) out := by
  induction bs generalizing c with
  | nil => simp
  | cons b bs ih =>
    have hb := hbs b (List.mem_cons_self b bs)
    have hbs' : ∀ x ∈ bs, "goroutine ".toList.isPrefixOf (x ++ ['\n']) = false :=
      fun x hx => hbs x (List.mem_cons_of_mem b hx)
    rw [List.map_cons, List.cons_append]
    rw [processLines_body_step b (bs.map (fun b => b ++ ['\n']) ++ X) c out hb hff]
    rw [ih ⟨c.id, c.state, c.firstFunction, c.fullStack ++ (b ++ ['\n'])⟩ hff hbs']
    simp

/-- Processing all the lines of one well-formed record turns it into a
completed Stack value and leaves the rest of the input to process. -/
theorem processLines_record (r : RawRecord) (X : List (List Char))
    (cur : Option Stack) (out : List Stack) (hwf : wellFormedRecord r) :
    processLines (recordLines r ++ X) cur out =
      processLines X (some (stackOfRecord r)) (flushStack cur out) := by
  obtain ⟨hh, hbne, hpf, hbody⟩ := hwf
  obtain ⟨b, bs, hb⟩ := List.exists_cons_of_ne_nil hbne
  obtain ⟨f, hf⟩ := Option.isSome_iff_exists.mp hpf
  have hbmem : b ∈ r.body := hb ▸ List.mem_cons_self b bs
  have hbnp := (hbody b hbmem).2
  have hfne : f ≠ [] := parseFirstFunc_ne_nil _ _ hf
  have hhead : r.body.headI = b := by rw [hb]; rfl
  have hfb : parseFirstFunc (b ++ ['\n']) = some f := by rwa [hhead] at hf
  rw [recordLines, hb, List.map_cons, List.cons_append, List.cons_append]
  rw [processLines_header_step r _ cur out hh]
  rw [show processLines ((b ++ ['\n']) :: (bs.map (fun x => x ++ ['\n']) ++ X))
        (some ⟨Int.ofNat (decValue r.idDigits), r.state, [], headerLine r⟩)
        (flushStack cur out) =
      processLines (bs.map (fun x => x ++ ['\n']) ++ X)
        (some ⟨Int.ofNat (decValue r.idDigits), r.state, f, headerLine r ++ (b ++ ['\n'])⟩)
        (flushStack cur out) by
    simp only [processLines, hbnp, Bool.false_eq_true, if_false, hfb]
    simp]
  rw [processLines_body bs X _ _ hfne
      (fun x hx => (hbody x (hb ▸ List.mem_cons_of_mem b hx)).2)]
  have hst : (⟨Int.ofNat (decValue r.idDigits), r.state, f,
      (headerLine r ++ (b ++ ['\n'])) ++ (bs.map (fun x => x ++ ['\n'])).flatten⟩ : Stack) =
      stackOfRecord r := by
    unfold stackOfRecord firstFuncOf renderRecord recordLines
    rw [hb]
    simp [List.headI, hfb, List.append_assoc]
  rw [hst]

/-- After the lines of a record sequence, the loop state is scanState. -/
theorem processLines_records (rs : List RawRecord) (X : List (List Char))
    (cur : Option Stack) (out : List Stack)
    (hwf : ∀ r ∈ rs, wellFormedRecord r) :
    processLines (flatLines rs ++ X) cur out =
      processLines X (scanState rs cur out).1 (scanState rs cur out).2 := by
  induction rs generalizing cur out with
  | nil => simp [flatLines, scanState]
  | cons r rs ih =>
    have hr := hwf r (List.mem_cons_self r rs)
    have hrs : ∀ x ∈ rs, wellFormedRecord x := fun x hx => hwf x (List.mem_cons_of_mem r hx)
    rw [show flatLines (r :: rs) = recordLines r ++ flatLines rs by
      simp [flatLines]]
    rw [List.append_assoc, processLines_record r _ cur out hr, ih _ _ hrs]
    rfl

/-- Flushing the scanState of a record sequence appends exactly the Stack
values of those records. -/
theorem flush_scanState (rs : List RawRecord) (cur : Option Stack) (out : List Stack) :
    flushStack (scanState rs cur out).1 (scanState rs cur out).2 =
      flushStack cur out ++ rs.map stackOfRecord := by
  induction rs generalizing cur out with
  | nil => simp [scanState]
  | cons r rs ih =>
    rw [show scanState (r :: rs) cur out =
      scanState rs (some (stackOfRecord r)) (flushStack cur out) from rfl]
    rw [ih]
    simp [flushStack]

/-- Parsing a rendered well-formed dump yields exactly the Stack values of
its records, in order. -/
theorem getStacks_renderDump (rs : List RawRecord)
    (hwf : ∀ r ∈ rs, wellFormedRecord r) (hne : rs ≠ []) :
    getStacks (renderDump rs) = ParseOutcome.ok (rs.map stackOfRecord) := by
  unfold getStacks
  rw [show renderDump rs = renderDump rs ++ [] by simp]
  rw [completeLines_renderDump_append rs [] hwf]
  rw [show completeLines [] = [] from rfl]
  rw [processLines_records rs [] none [] hwf]
  rw [show processLines [] (scanState rs none []).1 (scanState rs none []).2 =
    if (flushStack (scanState rs none []).1 (scanState rs none []).2).isEmpty
    then ParseOutcome.err ParseError.noStacks
    else ParseOutcome.ok (flushStack (scanState rs none []).1 (scanState rs none []).2)
    from rfl]
  rw [flush_scanState]
  have hne' : rs.map stackOfRecord ≠ [] := by
    simpa using hne
  rw [if_neg (by simp [flushStack, hne'])]
  simp [flushStack]

/-- The errNoStacks result arises only when the scan ends with no line
processed: no record in progress, nothing flushed, no input line left. -/
theorem processLines_noStacks (ls : List (List Char)) (cur : Option Stack)
    (out : List Stack) (h : processLines ls cur out = .err .noStacks) :
    ls = [] ∧ cur = none ∧ out = [] := by
  induction ls generalizing cur out with
  | nil =>
    simp only [processLines] at h
    by_cases he : (flushStack cur out).isEmpty = true
    · have hfe : flushStack cur out = [] := by
        cases hfs : flushStack cur out with
        | nil => rfl
        | cons a as => rw [hfs] at he; simp at he
      cases cur with
      | none => exact ⟨rfl, rfl, by simpa [flushStack] using hfe⟩
      | some s => simp [flushStack] at hfe
    · rw [if_neg he] at h
      exact absurd h (by simp)
  | cons line rest ih =>
    simp only [processLines] at h
    split at h
    · split at h
      · rename_i e hhdr
        simp only [ParseOutcome.err.injEq] at h
        exact absurd h (parseGoStackHeader_ne_noStacks line e hhdr)
      · obtain ⟨-, hcur, -⟩ := ih _ _ h
        exact absurd hcur (by simp)
    · split at h
      · simp at h
      · split at h
        · split at h
          · obtain ⟨-, hcur, -⟩ := ih _ _ h
            exact absurd hcur (by simp)
          · simp at h
        · obtain ⟨-, hcur, -⟩ := ih _ _ h
          exact absurd hcur (by simp)

/-! ## Lemmas about the capture loop -/

/-- The doubling loop stops at the first capacity in the doubling sequence
for which the primitive reports fewer bytes than the capacity, and returns
exactly the bytes reported there. -/
theorem getStackBufferLoop_first_fit (prim : Nat → List Char) (k : Nat) :
    ∀ fuel cap : Nat, k < fuel →
    (∀ j, j < k → (prim (2 ^ j * cap)).length = 2 ^ j * cap) →
    (prim (2 ^ k * cap)).length < 2 ^ k * cap →
    getStackBufferLoop prim fuel cap = some (prim (2 ^ k * cap)) := by
  induction k with
  | zero =>
    intro fuel cap hfuel hfull hfit
    match fuel, hfuel with
    | fuel + 1, _ =>
      have h0 : 2 ^ 0 * cap = cap := by simp
      rw [h0] at hfit ⊢
      unfold getStackBufferLoop
      rw [if_pos hfit]
  | succ k ih =>
    intro fuel cap hfuel hfull hfit
    match fuel, hfuel with
    | fuel + 1, hfuel =>
      unfold getStackBufferLoop
      have h0 : (prim cap).length = cap := by
        have := hfull 0 (Nat.succ_pos k)
        simpa using this
      rw [if_neg (by rw [h0]; exact lt_irrefl cap)]
      have hfull' : ∀ j, j < k → (prim (2 ^ j * (cap * 2))).length = 2 ^ j * (cap * 2) := by
        intro j hj
        have hj1 := hfull (j + 1) (by omega)
        rw [show 2 ^ (j + 1) * cap = 2 ^ j * (cap * 2) by ring] at hj1
        exact hj1
      have hfit' : (prim (2 ^ k * (cap * 2))).length < 2 ^ k * (cap * 2) := by
        rw [show 2 ^ k * (cap * 2) = 2 ^ (k + 1) * cap by ring]
        exact hfit
      rw [ih fuel (cap * 2) (by omega) hfull' hfit']
      rw [show 2 ^ k * (cap * 2) = 2 ^ (k + 1) * cap by ring]

/-! ## Concrete records used by witnesses and counterexamples -/

def demoRecord1 : RawRecord :=
  ⟨"42".toList, "running".toList, ["main.main()".toList]⟩

def demoRecord2 : RawRecord :=
  ⟨"7".toList, "chan receive".toList,
    ["foo.(*Bar).baz(0xc0000b2000)".toList, "\tbar.go:5 +0x20".toList]⟩

def demoDump : List RawRecord := [demoRecord1, demoRecord2]

def c4Record : RawRecord :=
  ⟨"7".toList, "running".toList, ["\ta.(*b).c(1)".toList]⟩

def c4Dump : List Char := renderDump [c4Record]

def c4Stack : Stack :=
  ⟨7, "running".toList, "a.(*b).c".toList, c4Dump⟩

def c2Dump : List Char := "goroutine 1 [running]:\nmain\n".toList

/-! ## Claim theorems -/

/-- C1: for every well-formed dump text of N >= 1 records, each a header
line of the form goroutine id [state] colon followed by one or more body
lines, getStacks returns exactly N Stack values in input order, each with
the id and state of its header line and a fullStack equal to the exact
concatenation of that record header line and body lines. -/
theorem getStacks_wellFormed_records (rs : List RawRecord)
    (hwf : ∀ r ∈ rs, wellFormedRecord r) (hne : rs ≠ []) :
    ∃ out : List Stack,
      getStacks (renderDump rs) = ParseOutcome.ok out ∧
      out.length = rs.length ∧
      ∀ (i : Nat) (hi : i < rs.length) (hs : i < out.length),
        (out.get ⟨i, hs⟩).id = Int.ofNat (decValue ((rs.get ⟨i, hi⟩).idDigits)) ∧
        (out.get ⟨i, hs⟩).state = (rs.get ⟨i, hi⟩).state ∧
        (out.get ⟨i, hs⟩).fullStack =
          headerLine (rs.get ⟨i, hi⟩) ++
            ((rs.get ⟨i, hi⟩).body.map (fun b => b ++ ['\n'])).flatten := by
  refine ⟨rs.map stackOfRecord, getStacks_renderDump rs hwf hne, by simp, ?_⟩
  intro i hi hs
  have hg : (rs.map stackOfRecord).get ⟨i, hs⟩ = stackOfRecord (rs.get ⟨i, hi⟩) := by
    simp [List.get_eq_getElem, List.getElem_map]
  rw [hg]
  refine ⟨rfl, rfl, ?_⟩
  simp [stackOfRecord, renderRecord, recordLines]

/-- Witness for C1 at a concrete two-record dump. -/
theorem getStacks_wellFormed_records_witness :
    (∀ r ∈ demoDump, wellFormedRecord r) ∧ demoDump ≠ [] ∧
    ∃ out : List Stack,
      getStacks (renderDump demoDump) = ParseOutcome.ok out ∧
      out.length = demoDump.length := by
  refine ⟨by decide, by decide, ?_⟩
  obtain ⟨out, h1, h2, -⟩ :=
    getStacks_wellFormed_records demoDump (by decide) (by decide)
  exact ⟨out, h1, h2⟩

/-- C2 counterexample: on a first body line without a parenthesis the code
panics inside parseFirstFunc; it does not return an error value as the
claim states. -/
theorem parse_failure_error_claim_cex :
    getStacks c2Dump = ParseOutcome.funcPanic "main\n".toList ∧
    ¬ ∃ e : ParseError, getStacks c2Dump = ParseOutcome.err e := by
  constructor
  · decide
  · rintro ⟨e, h⟩
    rw [show getStacks c2Dump = ParseOutcome.funcPanic "main\n".toList
      from by decide] at h
    exact ParseOutcome.noConfusion h

/-- C2 (amended): after any well-formed prefix of records, a header line
with a malformed field list or id makes getStacks abort immediately,
returning exactly that header error and no partial record sequence,
regardless of the remaining input; a first body line with no parenthesis
at a positive offset makes getStacks abort by panicking (funcPanic), not
by returning an error value. -/
theorem parse_failure_aborts (rs : List RawRecord) (r : RawRecord)
    (m t : List Char)
    (hwf : ∀ x ∈ rs, wellFormedRecord x) (hm : '\n' ∉ m) :
    ("goroutine ".toList.isPrefixOf (m ++ ['\n']) = true →
      ∀ e, parseGoStackHeader (m ++ ['\n']) = .error e →
        getStacks (renderDump rs ++ (m ++ '\n' :: t)) = ParseOutcome.err e) ∧
    (wellFormedHeader r →
      "goroutine ".toList.isPrefixOf (m ++ ['\n']) = false →
      parseFirstFunc (m ++ ['\n']) = none →
      getStacks (renderDump rs ++ (headerLine r ++ (m ++ '\n' :: t)))
        = ParseOutcome.funcPanic (m ++ ['\n'])) := by
  constructor
  · intro hp e he
    unfold getStacks
    rw [completeLines_renderDump_append rs _ hwf]
    rw [show completeLines (m ++ '\n' :: t) = (m ++ ['\n']) :: completeLines t from by
      unfold completeLines
      rw [splitCL_line m t [] hm]
      simp]
    rw [processLines_records rs _ none [] hwf]
    exact processLines_header_error _ _ _ _ e hp he
  · intro hwfh hp hpf
    unfold getStacks
    rw [completeLines_renderDump_append rs _ hwf]
    rw [show completeLines (headerLine r ++ (m ++ '\n' :: t)) =
        headerLine r :: (m ++ ['\n']) :: completeLines t from by
      rw [headerLine_eq r]
      unfold completeLines
      rw [show (headerM r ++ ['\n']) ++ (m ++ '\n' :: t) =
        headerM r ++ '\n' :: (m ++ '\n' :: t) by simp]
      rw [splitCL_line _ _ [] (headerM_no_newline r hwfh)]
      rw [splitCL_line m t [] hm]
      simp [headerLine_eq]]
    rw [processLines_records rs _ none [] hwf]
    rw [processLines_header_step r _ _ _ hwfh]
    exact processLines_funcPanic _ _ _ _ hp rfl hpf

/-- Witness for C2 (amended) at concrete inputs: a header line with a
non-numeric id aborts with its header error, and a parenthesis-free first
body line after a good header panics. -/
theorem parse_failure_aborts_witness :
    getStacks (renderDump [] ++ ("goroutine x [running]:".toList ++ '\n' :: []))
      = ParseOutcome.err
          (ParseError.badID "x".toList "goroutine x [running]".toList) ∧
    getStacks (renderDump [] ++ (headerLine demoRecord1 ++ ("main".toList ++ '\n' :: [])))
      = ParseOutcome.funcPanic ("main".toList ++ ['\n']) := by
  constructor
  · exact (parse_failure_aborts [] demoRecord1 "goroutine x [running]:".toList []
      (by decide) (by decide)).1 (by decide) _ rfl
  · exact (parse_failure_aborts [] demoRecord1 "main".toList []
      (by decide) (by decide)).2 (by decide) (by decide) (by decide)

/-- C3: with a zero test result, a parse-class Find error (structural
parse failure or empty snapshot) writes the skipped diagnostic and exits
zero; a non-zero exit arises only from a non-zero test result or a
leak-detected Find result. -/
theorem verifyTestMain_parse_error_soft_skip :
    (∀ e : ParseError, verifyTestMain 0 (some (FindError.structuralParse e)) =
      ⟨0, true, [skippedDiagnostic]⟩) ∧
    verifyTestMain 0 (some FindError.emptySnapshot) =
      ⟨0, true, [skippedDiagnostic]⟩ ∧
    ∀ (code : Int) (f : Option FindError),
      (verifyTestMain code f).exitCode ≠ 0 →
      code ≠ 0 ∨ ∃ leaks, f = some (FindError.leakDetected leaks) := by
  refine ⟨fun e => rfl, rfl, ?_⟩
  intro code f h
  by_cases hc : code = 0
  · subst hc
    right
    unfold verifyTestMain at h
    rw [if_neg (by simp)] at h
    match f with
    | none => simp at h
    | some (FindError.leakDetected leaks) => exact ⟨leaks, rfl⟩
    | some (FindError.structuralParse e) =>
      simp [FindError.isStackParseErr] at h
    | some FindError.emptySnapshot =>
      simp [FindError.isStackParseErr] at h
  · exact Or.inl hc

/-- Witness for C3: a leak-detected result under a zero test result is a
case with a non-zero exit, and it satisfies the conclusion. -/
theorem verifyTestMain_parse_error_soft_skip_witness :
    (0 : Int) ≠ 0 ∨
      ∃ leaks, (some (FindError.leakDetected []) : Option FindError)
        = some (FindError.leakDetected leaks) :=
  verifyTestMain_parse_error_soft_skip.2.2 0 (some (FindError.leakDetected []))
    (by decide)

/-- C4 counterexample: the code truncates at the last parenthesis of the
trimmed first body line, not the first one as the claim states. -/
theorem firstFunction_first_paren_cex :
    getStacks c4Dump = ParseOutcome.ok [c4Stack] ∧
    firstFuncClaimed ("\ta.(*b).c(1)".toList ++ ['\n']) = "a.".toList ∧
    c4Stack.firstFunction ≠ firstFuncClaimed ("\ta.(*b).c(1)".toList ++ ['\n']) := by
  refine ⟨by decide, by decide, by decide⟩

/-- C4 (amended): for every record parsed by getStacks from a well-formed
dump, the record firstFunction equals the whitespace-trimmed text of the
first body line truncated at its last parenthesis occurring at a positive
offset. -/
theorem firstFunction_last_paren (rs : List RawRecord)
    (hwf : ∀ r ∈ rs, wellFormedRecord r) (hne : rs ≠ []) :
    ∃ out : List Stack,
      getStacks (renderDump rs) = ParseOutcome.ok out ∧
      out.length = rs.length ∧
      ∀ (i : Nat) (hi : i < rs.length) (hs : i < out.length),
        (out.get ⟨i, hs⟩).firstFunction =
          firstFuncAmended ((rs.get ⟨i, hi⟩).body.headI ++ ['\n']) := by
  refine ⟨rs.map stackOfRecord, getStacks_renderDump rs hwf hne, by simp, ?_⟩
  intro i hi hs
  have hg : (rs.map stackOfRecord).get ⟨i, hs⟩ = stackOfRecord (rs.get ⟨i, hi⟩) := by
    simp [List.get_eq_getElem, List.getElem_map]
  rw [hg]
  have hwfi := hwf (rs.get ⟨i, hi⟩) (List.get_mem rs i hi)
  exact parseFirstFunc_eq_amended _ hwfi.2.2.1

/-- Witness for C4 (amended) at the concrete record with two parentheses
on its first body line. -/
theorem firstFunction_last_paren_witness :
    (∀ r ∈ [c4Record], wellFormedRecord r) ∧
    ∃ out : List Stack,
      getStacks (renderDump [c4Record]) = ParseOutcome.ok out ∧
      out.length = 1 := by
  refine ⟨by decide, ?_⟩
  obtain ⟨out, h1, h2, -⟩ :=
    firstFunction_last_paren [c4Record] (by decide) (by decide)
  exact ⟨out, h1, h2⟩

/-- C5: the capture loop doubles the buffer while the primitive reports a
byte count equal to the capacity; it stops at the first capacity of the
doubling sequence with a strictly smaller report, returning exactly the
reported bytes; with a primitive that truncates a fixed dump, the result
is that complete dump. -/
theorem getStackBuffer_first_fit (prim : Nat → List Char) (k fuel : Nat)
    (hfuel : k < fuel)
    (hfull : ∀ j, j < k →
      (prim (2 ^ j * defaultBufferSize)).length = 2 ^ j * defaultBufferSize)
    (hfit : (prim (2 ^ k * defaultBufferSize)).length < 2 ^ k * defaultBufferSize) :
    getStackBuffer prim fuel = some (prim (2 ^ k * defaultBufferSize)) ∧
    ∀ dump : List Char, prim = primOf dump → getStackBuffer prim fuel = some dump := by
  have hloop :=
    getStackBufferLoop_first_fit prim k fuel defaultBufferSize hfuel hfull hfit
  refine ⟨hloop, ?_⟩
  intro dump hprim
  subst hprim
  unfold getStackBuffer
  rw [hloop]
  unfold primOf at hfit ⊢
  by_cases hlt : dump.length < 2 ^ k * defaultBufferSize
  · rw [if_pos hlt]
  · exfalso
    rw [if_neg hlt] at hfit
    rw [List.length_take] at hfit
    omega

/-- Witness for C5: a small dump fits in the first buffer, and the loop
returns it complete. -/
theorem getStackBuffer_first_fit_witness :
    getStackBuffer (primOf "goroutine 1 [running]:\n".toList) 1
      = some "goroutine 1 [running]:\n".toList :=
  (getStackBuffer_first_fit (primOf "goroutine 1 [running]:\n".toList) 0 1
    (by decide)
    (fun j hj => absurd hj (Nat.not_lt_zero j))
    (by decide)).2 _ rfl

/-- C6: getStacks returns the errNoStacks sentinel exactly when the line
scan completes having produced zero records, which happens precisely when
the input has no complete line (in particular on empty input). -/
theorem getStacks_noStacks_iff (input : List Char) :
    getStacks input = ParseOutcome.err ParseError.noStacks ↔
      completeLines input = [] := by
  constructor
  · intro h
    exact (processLines_noStacks _ _ _ h).1
  · intro h
    unfold getStacks
    rw [h]
    rfl

/-- Witness for C6 at the empty input. -/
theorem getStacks_noStacks_iff_witness :
    getStacks [] = ParseOutcome.err ParseError.noStacks ↔ completeLines [] = [] :=
  getStacks_noStacks_iff []

/-- C7: a non-zero test result is returned unchanged; Find is never
invoked and nothing is written to the error stream. -/
theorem verifyTestMain_nonzero_short_circuit (code : Int) (f : Option FindError)
    (h : code ≠ 0) :
    verifyTestMain code f = ⟨code, false, []⟩ := by
  unfold verifyTestMain
  rw [if_pos h]

/-- Witness for C7 at a failing test run with a pending leak result. -/
theorem verifyTestMain_nonzero_short_circuit_witness :
    verifyTestMain 2 (some (FindError.leakDetected [])) = ⟨2, false, []⟩ :=
  verifyTestMain_nonzero_short_circuit 2 _ (by decide)

/-- C8: a capture-and-parse of a dump holding exactly one well-formed
record yields exactly one Stack, and Current returns that single entry. -/
theorem Current_single_record (r : RawRecord) (hwf : wellFormedRecord r) :
    getStacks (renderDump [r]) = ParseOutcome.ok [stackOfRecord r] ∧
    Current (renderDump [r]) = CurrentOutcome.ok (stackOfRecord r) := by
  have h := getStacks_renderDump [r]
    (fun x hx => by rw [List.mem_singleton.mp hx]; exact hwf) (by simp)
  rw [List.map_singleton] at h
  refine ⟨h, ?_⟩
  unfold Current
  rw [h]

/-- Witness for C8 at a concrete single-record dump. -/
theorem Current_single_record_witness :
    wellFormedRecord demoRecord1 ∧
    getStacks (renderDump [demoRecord1]) =
      ParseOutcome.ok [stackOfRecord demoRecord1] ∧
    Current (renderDump [demoRecord1]) =
      CurrentOutcome.ok (stackOfRecord demoRecord1) :=
  ⟨by decide, Current_single_record demoRecord1 (by decide)⟩

/-- C9: when the first complete line of the input does not start with the
goroutine marker, getStacks neither returns a result nor an error value:
it dereferences the nil current record on that line, so a normal return
implies the first line is a header line. -/
theorem getStacks_first_line_not_header (input l : List Char)
    (ls : List (List Char))
    (h : completeLines input = l :: ls)
    (hnp : "goroutine ".toList.isPrefixOf l = false) :
    getStacks input = ParseOutcome.nilDeref l := by
  unfold getStacks
  rw [h]
  exact processLines_nilDeref l ls [] hnp

/-- Witness for C9 at a concrete non-header first line. -/
theorem getStacks_first_line_not_header_witness :
    getStacks "hello\n".toList = ParseOutcome.nilDeref "hello\n".toList :=
  getStacks_first_line_not_header _ _ [] (by decide) (by decide)

/-- C10: an unterminated trailing segment is discarded entirely: it is
appended to no record, starts no record, and triggers no error; getStacks
behaves exactly as on the input without it. -/
theorem getStacks_trailing_discarded (s t : List Char) (h : '\n' ∉ t) :
    getStacks (s ++ t) = getStacks s := by
  unfold getStacks
  rw [completeLines_append_no_newline s t h]

/-- Witness for C10 at a concrete truncated dump. -/
theorem getStacks_trailing_discarded_witness :
    getStacks ("goroutine 1 [running]:\nmain.main()\n".toList ++
      "goroutine 2 [r".toList)
      = getStacks "goroutine 1 [running]:\nmain.main()\n".toList :=
  getStacks_trailing_discarded _ _ (by decide)

end Goleak
